import Mathlib

/-!
Verification of the llm_file_sort repository: a shallow embedding of the
path manipulation, the in-memory filesystem model, the move engine
(`main.py: move_files`), the conflict analyzer (`main.py:
validate_file_mapping`), the directory cleanups (`main.py:
cleanup_empty_dirs` and the cleanup phase of `src/file_utils.py:
move_files` / `src/move_files.py: move_files`), the retry wrapper
(`src/ai_utils.py: _handle_api_exceptions`), the per-file mapper
(`main.py: map_files_to_directories`), the two-step reconciler
(`llm_file_organizer.py: main_two_step`, lines 124-131), and the
missing-file validation of `src/generate_structure_proposal.py` and
`ai_suggest_file_structure.py`.
-/

namespace LlmFileSort

/-! ## POSIX path helpers (faithful to `posixpath` as used by the code) -/

/-- Drop trailing `'/'` characters (used by `posixpath.split` when the head
is not all slashes). -/
def stripTrailingSlashes (cs : List Char) : List Char :=
  (cs.reverse.dropWhile (· == '/')).reverse

/-- `posixpath.split p`: split into `(head, tail)` at the final slash; the
head keeps its trailing slash only when it consists solely of slashes. -/
def splitPath (p : String) : String × String :=
  let cs := p.toList
  let tail := (cs.reverse.takeWhile (· != '/')).reverse
  let head := (cs.reverse.dropWhile (· != '/')).reverse
  let head' := if head ≠ [] ∧ head.any (· != '/') then stripTrailingSlashes head else head
  (⟨head'⟩, ⟨tail⟩)

/-- `os.path.dirname` on POSIX: the head component of `splitPath`. -/
def dirnamePy (p : String) : String := (splitPath p).1

/-- `os.path.basename` on POSIX: the tail component of `splitPath`. -/
def basenamePy (p : String) : String := (splitPath p).2

/-- Split a character list on `'/'` (the component list `p.split('/')`
computed by `posixpath.normpath`). -/
def splitSlash : List Char → List (List Char)
  | [] => [[]]
  | c :: cs =>
    let r := splitSlash cs
    if c = '/' then [] :: r
    else match r with
      | [] => [[c]]
      | s :: rest => (c :: s) :: rest

/-- Interleave `'/'` between components (`sep.join` in `posixpath.normpath`). -/
def joinSlash : List (List Char) → List Char
  | [] => []
  | [s] => s
  | s :: rest => s ++ '/' :: joinSlash rest

/-- `os.path.normpath` on POSIX: collapse empty and `.` components and
resolve `..` components, preserving the leading-slash convention
(one slash, or exactly two when the path starts with exactly two). -/
def normpath (p : String) : String :=
  let cs := p.toList
  if cs = [] then "." else
  let isAbs := cs.head? = some '/'
  let dslash : Bool := match cs with
    | '/' :: '/' :: rest => rest.head? != some '/'
    | _ => false
  let comps := splitSlash cs
  let newComps := comps.foldl (fun acc comp =>
    if comp = [] ∨ comp = ['.'] then acc
    else if comp ≠ ['.', '.'] ∨ (¬ isAbs ∧ acc = []) ∨ acc.getLast? = some ['.', '.'] then
      acc ++ [comp]
    else acc.dropLast) []
  let pre : List Char := if isAbs then (if dslash then ['/', '/'] else ['/']) else []
  let r := pre ++ joinSlash newComps
  if r = [] then "." else ⟨r⟩

/-- Number of `'/'` characters in a path (Python `x.count(os.sep)`),
used by the cleanup phases to sort candidate directories deepest first. -/
def sepCount (p : String) : Nat := (p.toList.filter (· == '/')).length

/-- The chain of proper ancestors of a path obtained by iterating
`dirnamePy`, outermost last; the fuel bounds the recursion (the dirname of
a path is never longer than the path). -/
def chainAux : Nat → String → List String
  | 0, _ => []
  | n+1, p =>
    let q := dirnamePy p
    if q = p ∨ q = "" then [] else q :: chainAux n q

/-- All proper ancestors of `p` under repeated `dirnamePy`. -/
def ancestorsOf (p : String) : List String := chainAux p.length p

/-- The cumulative literal prefixes of a path, shortest first, as created
by `os.makedirs` (which creates each literal head component in turn). -/
def mkChain : Nat → String → List String
  | 0, p => [p]
  | n+1, p =>
    let q := dirnamePy p
    if q = p ∨ q = "" then [p] else mkChain n q ++ [p]

example : splitPath "/r/x/.." = ("/r/x", "..") := by decide
example : dirnamePy "/d/a" = "/d" := by decide
example : dirnamePy "a.txt" = "" := by decide
example : dirnamePy "docs/a.txt" = "docs" := by decide
example : normpath "/x/a.txt" = "/x/a.txt" := by decide
example : normpath "/r/x/../f.txt" = "/r/f.txt" := by decide
example : normpath "/r/x/.." = "/r" := by decide
example : normpath "" = "." := by decide
example : normpath "/" = "/" := by decide
example : mkChain 20 "/r/x/.." = ["/", "/r", "/r/x", "/r/x/.."] := by decide
example : ancestorsOf "/r/a/f.txt" = ["/r/a", "/r", "/"] := by decide

/-! ## Filesystem model

The state the code manipulates through `os` / `shutil`: a set of regular
files and a set of directories, both stored as normalized absolute (or
cwd-relative) paths.  All primitive operations below model the *net
effect on that state* of the corresponding library call on a real POSIX
filesystem without symlinks, including partial effects left behind when a
call raises. -/

structure FS where
  files : List String
  dirs : List String
deriving DecidableEq

/-- `os.path.exists p`: the resolved path names a file or a directory. -/
def pexists (fs : FS) (p : String) : Bool :=
  fs.files.contains (normpath p) || fs.dirs.contains (normpath p)

/-- A directory has a direct child entry; `os.listdir d` is non-empty
exactly when this holds (for `d` a directory of the state). -/
def hasChild (fs : FS) (d : String) : Bool :=
  (fs.files ++ fs.dirs).any (fun p => p != d && dirnamePy p == d)

/-- One step of `os.makedirs`: try to create each literal cumulative
prefix in turn.  Stops with `false` (an uncaught `OSError`) when a prefix
resolves to an existing regular file, keeping the directories already
created — exactly the net effect of CPython `os.makedirs(..., exist_ok)`
with a file in the way. -/
def mkChainFold (fs : FS) : List String → FS × Bool
  | [] => (fs, true)
  | c :: cs =>
    let n := normpath c
    if fs.files.contains n then (fs, false)
    else if n = "/" ∨ n = "." ∨ fs.dirs.contains n then mkChainFold fs cs
    else mkChainFold { fs with dirs := n :: fs.dirs } cs

/-- `os.makedirs p` (net effect): create every missing literal prefix of
`p`; `os.makedirs("")` raises `FileNotFoundError`.  The root `/` and `.`
always exist. -/
def makedirs (fs : FS) (p : String) : FS × Bool :=
  if p = "" then (fs, false) else mkChainFold fs (mkChain p.length p)

/-- `os.rename src dst` for a regular file (net effect): succeeds when the
source is an existing file, the destination's parent directory exists and
the destination is not an existing directory; overwrites an existing
destination file.  `none` models the raised `OSError`. -/
def renameF (fs : FS) (src dst : String) : Option FS :=
  let s := normpath src
  let d := normpath dst
  if fs.files.contains s && !fs.dirs.contains d && fs.dirs.contains (dirnamePy d) then
    some { fs with files := (fs.files.filter (fun x => x != s && x != d)) ++ [d] }
  else none

/-- `os.rmdir d` under an emptiness guard (the code always checks
`os.listdir(dir_path)` first): drop the directory from the state. -/
def rmdirF (fs : FS) (d : String) : FS :=
  { fs with dirs := fs.dirs.filter (fun x => x != d) }

/-- Every ancestor (under `dirnamePy`) of every file of the state is a
directory of the state: the well-formedness any state produced by a real
filesystem satisfies. -/
def WFanc (fs : FS) : Prop :=
  ∀ f ∈ fs.files, ∀ a ∈ ancestorsOf f, a ∈ fs.dirs

instance (fs : FS) : Decidable (WFanc fs) := by
  unfold WFanc; infer_instance

/-! ## `main.py`: the Move Engine (`move_files`, lines 180-209) -/

namespace Main

/-- Result of a batch move: `done` carries the tally returned by
`move_files`; `aborted` is an exception escaping the loop (only
`os.makedirs`, which line 189 leaves outside the `try`), carrying the
state and tally at the moment of the abort. -/
inductive MoveFilesResult where
  | done (fs : FS) (moved skipped errors : Nat)
  | aborted (fs : FS) (moved skipped errors : Nat)
deriving DecidableEq

/-- The per-entry loop of `move_files`: unconditional
`os.makedirs(os.path.dirname(dest_path), exist_ok=True)`, then the
missing-source `continue` (no counter), then the normalized no-op check
(`skipped += 1`), then the guarded `os.rename` (`moved += 1` on success,
`errors += 1` on a caught exception). -/
def moveFilesAux (fs : FS) (moved skipped errors : Nat) :
    List (String × String) → MoveFilesResult
  | [] => .done fs moved skipped errors
  | (src, dst) :: rest =>
    let mk := makedirs fs (dirnamePy dst)
    if mk.2 = false then .aborted mk.1 moved skipped errors
    else if pexists mk.1 src = false then moveFilesAux mk.1 moved skipped errors rest
    else if normpath src = normpath dst then moveFilesAux mk.1 moved (skipped + 1) errors rest
    else match renameF mk.1 src dst with
      | some fs2 => moveFilesAux fs2 (moved + 1) skipped errors rest
      | none => moveFilesAux mk.1 moved skipped (errors + 1) rest

/-- `main.py: move_files(file_mapping)` — returns `(moved, skipped,
errors)` unless an uncaught `os.makedirs` error aborts the batch. -/
def move_files (file_mapping : List (String × String)) (fs : FS) : MoveFilesResult :=
  moveFilesAux fs 0 0 0 file_mapping

/-- The skipped component of an outcome (0 when the batch aborted). -/
def skippedOf : MoveFilesResult → Nat
  | .done _ _ s _ => s
  | .aborted _ _ s _ => s

/-- The moved component of an outcome. -/
def movedOf : MoveFilesResult → Nat
  | .done _ m _ _ => m
  | .aborted _ m _ _ => m

/-- The errors component of an outcome. -/
def errorsOf : MoveFilesResult → Nat
  | .done _ _ _ e => e
  | .aborted _ _ _ e => e

/-- Whether the batch ran to completion (`True` branch of `done`). -/
def completed : MoveFilesResult → Bool
  | .done _ _ _ _ => true
  | .aborted _ _ _ _ => false

/-- The filesystem state an outcome carries. -/
def fsOf : MoveFilesResult → FS
  | .done fs _ _ _ => fs
  | .aborted fs _ _ _ => fs

end Main

/-! ## Helper lemmas about the filesystem primitives -/

theorem mkChainFold_files (cs : List String) (fs : FS) :
    (mkChainFold fs cs).1.files = fs.files := by
  induction cs generalizing fs with
  | nil => rfl
  | cons c cs ih =>
    simp only [mkChainFold]
    split
    · rfl
    · split
      · exact ih fs
      · exact ih _

theorem mkChainFold_dirs_sub (cs : List String) (fs : FS) :
    fs.dirs ⊆ (mkChainFold fs cs).1.dirs := by
  induction cs generalizing fs with
  | nil => exact fun _ h => h
  | cons c cs ih =>
    simp only [mkChainFold]
    split
    · exact fun _ h => h
    · split
      · exact ih fs
      · intro x hx
        exact ih _ (List.mem_cons_of_mem _ hx)

theorem scontains_iff (l : List String) (a : String) : l.contains a = true ↔ a ∈ l :=
  List.elem_iff

theorem mkChainFold_ok_mem (cs : List String) (fs : FS)
    (h : (mkChainFold fs cs).2 = true) :
    ∀ c ∈ cs, (normpath c ∉ fs.files) ∧
      (normpath c = "/" ∨ normpath c = "." ∨ normpath c ∈ (mkChainFold fs cs).1.dirs) := by
  induction cs generalizing fs with
  | nil => intro c hc; cases hc
  | cons c cs ih =>
    by_cases hfile : fs.files.contains (normpath c) = true
    · rw [show mkChainFold fs (c :: cs) = (fs, false) by
        simp only [mkChainFold]; rw [if_pos hfile]] at h
      cases h
    · have hnf : normpath c ∉ fs.files := fun hm => hfile ((scontains_iff _ _).2 hm)
      by_cases hskip : normpath c = "/" ∨ normpath c = "." ∨ fs.dirs.contains (normpath c) = true
      · have heq : mkChainFold fs (c :: cs) = mkChainFold fs cs := by
          simp only [mkChainFold]; rw [if_neg hfile, if_pos hskip]
        rw [heq] at h ⊢
        intro x hx
        rcases List.mem_cons.1 hx with rfl | hx
        · refine ⟨hnf, ?_⟩
          rcases hskip with h1 | h1 | h1
          · exact Or.inl h1
          · exact Or.inr (Or.inl h1)
          · exact Or.inr (Or.inr (mkChainFold_dirs_sub cs fs ((scontains_iff _ _).1 h1)))
        · exact ih fs h x hx
      · have heq : mkChainFold fs (c :: cs) =
            mkChainFold { fs with dirs := normpath c :: fs.dirs } cs := by
          simp only [mkChainFold]; rw [if_neg hfile, if_neg hskip]
        rw [heq] at h ⊢
        intro x hx
        rcases List.mem_cons.1 hx with rfl | hx
        · exact ⟨hnf, Or.inr (Or.inr (mkChainFold_dirs_sub cs _ (List.mem_cons_self _ _)))⟩
        · have := ih _ h x hx
          exact ⟨this.1, this.2⟩

theorem mkChainFold_skip (cs : List String) (fs : FS)
    (h : ∀ c ∈ cs, (normpath c ∉ fs.files) ∧
      (normpath c = "/" ∨ normpath c = "." ∨ normpath c ∈ fs.dirs)) :
    mkChainFold fs cs = (fs, true) := by
  induction cs with
  | nil => rfl
  | cons c cs ih =>
    have hc := h c (List.mem_cons_self _ _)
    have hfile : ¬ fs.files.contains (normpath c) = true :=
      fun hm => hc.1 ((scontains_iff _ _).1 hm)
    have hskip : normpath c = "/" ∨ normpath c = "." ∨ fs.dirs.contains (normpath c) = true := by
      rcases hc.2 with h1 | h1 | h1
      · exact Or.inl h1
      · exact Or.inr (Or.inl h1)
      · exact Or.inr (Or.inr ((scontains_iff _ _).2 h1))
    simp only [mkChainFold]
    rw [if_neg hfile, if_pos hskip]
    exact ih fun x hx => h x (List.mem_cons_of_mem _ hx)

theorem makedirs_eq (fs : FS) (p : String) (hp : p ≠ "") :
    makedirs fs p = mkChainFold fs (mkChain p.length p) := by
  simp only [makedirs]; rw [if_neg hp]

theorem makedirs_files (fs : FS) (p : String) :
    (makedirs fs p).1.files = fs.files := by
  by_cases hp : p = ""
  · simp [makedirs, hp]
  · rw [makedirs_eq fs p hp]; exact mkChainFold_files _ _

theorem makedirs_dirs_sub (fs : FS) (p : String) :
    fs.dirs ⊆ (makedirs fs p).1.dirs := by
  by_cases hp : p = ""
  · simp [makedirs, hp]
  · rw [makedirs_eq fs p hp]; exact mkChainFold_dirs_sub _ _

theorem makedirs_idem (fs : FS) (p : String) (h : (makedirs fs p).2 = true) :
    makedirs (makedirs fs p).1 p = ((makedirs fs p).1, true) := by
  have hp : p ≠ "" := by
    intro hp; rw [hp] at h; simp [makedirs] at h
  rw [makedirs_eq fs p hp] at h ⊢
  rw [makedirs_eq _ p hp]
  apply mkChainFold_skip
  intro c hc
  have := mkChainFold_ok_mem _ _ h c hc
  refine ⟨?_, this.2⟩
  rw [mkChainFold_files]
  exact this.1

theorem pexists_mono (fs fs' : FS) (p : String)
    (hf : fs'.files = fs.files) (hd : fs.dirs ⊆ fs'.dirs)
    (h : pexists fs p = true) : pexists fs' p = true := by
  simp only [pexists, Bool.or_eq_true, scontains_iff] at h ⊢
  rcases h with h | h
  · exact Or.inl (by rw [hf]; exact h)
  · exact Or.inr (hd h)

/-! ## Unfolding lemmas for the move-engine loop -/

namespace Main

theorem moveFilesAux_mkfail (fs : FS) (m s e : Nat) (src dst : String)
    (rest : List (String × String))
    (h : (makedirs fs (dirnamePy dst)).2 = false) :
    moveFilesAux fs m s e ((src, dst) :: rest) =
      .aborted (makedirs fs (dirnamePy dst)).1 m s e := by
  simp only [moveFilesAux]
  rw [if_pos h]

theorem moveFilesAux_missing (fs : FS) (m s e : Nat) (src dst : String)
    (rest : List (String × String))
    (hmk : (makedirs fs (dirnamePy dst)).2 = true)
    (hex : pexists (makedirs fs (dirnamePy dst)).1 src = false) :
    moveFilesAux fs m s e ((src, dst) :: rest) =
      moveFilesAux (makedirs fs (dirnamePy dst)).1 m s e rest := by
  simp only [moveFilesAux]
  rw [if_neg (by rw [hmk]; simp), if_pos hex]

theorem moveFilesAux_noop (fs : FS) (m s e : Nat) (src dst : String)
    (rest : List (String × String))
    (hmk : (makedirs fs (dirnamePy dst)).2 = true)
    (hex : pexists (makedirs fs (dirnamePy dst)).1 src = true)
    (hn : normpath src = normpath dst) :
    moveFilesAux fs m s e ((src, dst) :: rest) =
      moveFilesAux (makedirs fs (dirnamePy dst)).1 m (s + 1) e rest := by
  simp only [moveFilesAux]
  rw [if_neg (by rw [hmk]; simp),
      if_neg (by rw [hex]; simp), if_pos hn]

theorem moveFilesAux_renamefail (fs : FS) (m s e : Nat) (src dst : String)
    (rest : List (String × String))
    (hmk : (makedirs fs (dirnamePy dst)).2 = true)
    (hex : pexists (makedirs fs (dirnamePy dst)).1 src = true)
    (hn : normpath src ≠ normpath dst)
    (hr : renameF (makedirs fs (dirnamePy dst)).1 src dst = none) :
    moveFilesAux fs m s e ((src, dst) :: rest) =
      moveFilesAux (makedirs fs (dirnamePy dst)).1 m s (e + 1) rest := by
  simp only [moveFilesAux]
  rw [if_neg (by rw [hmk]; simp),
      if_neg (by rw [hex]; simp), if_neg hn, hr]

end Main

/-! ## Concrete scenarios for the move engine -/

/-- Two files `/r/a`, `/r/c` on disk; `/r/b` is absent (the missing source
of the partial-failure scenario). -/
def fsPartialFail : FS := { files := ["/r/a", "/r/c"], dirs := ["/", "/r", "/d"] }

/-- The three-entry mapping of the partial-failure scenario: entry 2's
source `/r/b` does not exist on disk. -/
def mapPartialFail : List (String × String) :=
  [("/r/a", "/d/a"), ("/r/b", "/d/b"), ("/r/c", "/d/c")]

/-- A state where `/f` is a regular file, so creating `/f/s` fails. -/
def fsMkdirFail : FS := { files := ["/r/a", "/r/b", "/f"], dirs := ["/", "/r"] }

/-- Entry 1's destination parent `/f/s` passes through the regular file
`/f`; entry 2 is perfectly movable. -/
def mapMkdirFail : List (String × String) := [("/r/a", "/f/s/a"), ("/r/b", "/r2/b")]

/-- A state where `/d/a` is an existing directory, so renaming a file onto
it fails with a caught `OSError`. -/
def fsRenameFail : FS := { files := ["/r/a", "/r/b"], dirs := ["/", "/r", "/d", "/d/a"] }

/-- Entry 1's rename fails (destination is a directory); entry 2 is movable. -/
def mapRenameFail : List (String × String) := [("/r/a", "/d/a"), ("/r/b", "/d/b")]

/-- A single file under `/r`, used by the no-op scenarios. -/
def fsNoop : FS := { files := ["/r/f.txt"], dirs := ["/", "/r"] }

/-- A no-op entry whose destination spells the same normalized path through
a `..` component: its parent directory `/r/x/..` makes `os.makedirs`
create the fresh directory `/r/x`. -/
def mapNoopDots : List (String × String) := [("/r/f.txt", "/r/x/../f.txt")]

/-- An empty root: the missing-source entry's destination parent `/newdir`
does not exist yet. -/
def fsEmptyRoot : FS := { files := [], dirs := ["/"] }

/-- A single entry whose source is missing and whose destination parent is
a new directory. -/
def mapMissingNew : List (String × String) := [("/r/missing.txt", "/newdir/missing.txt")]

/-! ## C1 — partial-failure tally -/

/-- C1 counterexample: on the 3-entry mapping whose entry 2 has a missing
source, `move_files` does *not* report `skipped = 1`: the missing-source
branch (`main.py` line 191-193) is a bare `continue` that increments no
counter, so the tally is `moved=2, skipped=0, errors=0`. -/
theorem C1_counterexample_skip_not_counted :
    ¬ Main.skippedOf (Main.move_files mapPartialFail fsPartialFail) = 1 := by decide

/-- C1 (amended): on the 3-entry mapping with entry 2's source missing,
`move_files` returns `moved=2, skipped=0, errors=0` and both valid entries
are relocated on disk; in general, an entry whose source does not exist is
passed over, leaving every counter unchanged. -/
theorem C1_missing_source_passed_over :
    (Main.move_files mapPartialFail fsPartialFail =
        .done { files := ["/d/a", "/d/c"], dirs := ["/", "/r", "/d"] } 2 0 0 ∧
      "/d/a" ∈ (Main.fsOf (Main.move_files mapPartialFail fsPartialFail)).files ∧
      "/d/c" ∈ (Main.fsOf (Main.move_files mapPartialFail fsPartialFail)).files) ∧
    ∀ (fs : FS) (m s e : Nat) (src dst : String) (rest : List (String × String)),
      (makedirs fs (dirnamePy dst)).2 = true →
      pexists (makedirs fs (dirnamePy dst)).1 src = false →
      Main.moveFilesAux fs m s e ((src, dst) :: rest) =
        Main.moveFilesAux (makedirs fs (dirnamePy dst)).1 m s e rest := by
  constructor
  · exact ⟨by decide, by decide, by decide⟩
  · intro fs m s e src dst rest hmk hex
    exact Main.moveFilesAux_missing fs m s e src dst rest hmk hex

/-- Witness for C1: the universal part applied at a concrete entry with a
missing source. -/
theorem C1_missing_source_witness :
    Main.moveFilesAux fsPartialFail 0 0 0 [("/r/b", "/d/b")] =
      Main.moveFilesAux (makedirs fsPartialFail (dirnamePy "/d/b")).1 0 0 0 [] :=
  C1_missing_source_passed_over.2 fsPartialFail 0 0 0 "/r/b" "/d/b" []
    (by decide) (by decide)

/-! ## C2 — per-entry fault isolation -/

/-- C2 counterexample: entry 1's destination parent `/f/s` cannot be
created because `/f` is a regular file; `os.makedirs` (line 189) sits
outside the `try`, so the exception aborts the whole batch: the run does
not complete, no error is recorded, and entry 2's file `/r/b` is never
moved. -/
theorem C2_counterexample_mkdir_aborts_batch :
    Main.completed (Main.move_files mapMkdirFail fsMkdirFail) = false ∧
    Main.errorsOf (Main.move_files mapMkdirFail fsMkdirFail) = 0 ∧
    "/r/b" ∈ (Main.fsOf (Main.move_files mapMkdirFail fsMkdirFail)).files := by decide

/-- C2 (amended): an OS-level failure of the move itself (`os.rename`) is
recorded as an error and the batch continues with the remaining entries;
but a failure while creating the destination parent directory is not
caught and aborts the whole batch. -/
theorem C2_fault_isolation_rename_only :
    (∀ (fs : FS) (m s e : Nat) (src dst : String) (rest : List (String × String)),
      (makedirs fs (dirnamePy dst)).2 = true →
      pexists (makedirs fs (dirnamePy dst)).1 src = true →
      normpath src ≠ normpath dst →
      renameF (makedirs fs (dirnamePy dst)).1 src dst = none →
      Main.moveFilesAux fs m s e ((src, dst) :: rest) =
        Main.moveFilesAux (makedirs fs (dirnamePy dst)).1 m s (e + 1) rest) ∧
    ∀ (fs : FS) (m s e : Nat) (src dst : String) (rest : List (String × String)),
      (makedirs fs (dirnamePy dst)).2 = false →
      Main.moveFilesAux fs m s e ((src, dst) :: rest) =
        .aborted (makedirs fs (dirnamePy dst)).1 m s e := by
  constructor
  · intro fs m s e src dst rest hmk hex hn hr
    exact Main.moveFilesAux_renamefail fs m s e src dst rest hmk hex hn hr
  · intro fs m s e src dst rest h
    exact Main.moveFilesAux_mkfail fs m s e src dst rest h

/-- Witness for C2: the rename-failure part applied at a concrete entry
(the destination `/d/a` is an existing directory), showing the error is
counted and the next entry is still processed. -/
theorem C2_fault_isolation_witness :
    Main.moveFilesAux fsRenameFail 0 0 0 mapRenameFail =
      Main.moveFilesAux (makedirs fsRenameFail (dirnamePy "/d/a")).1 0 0 1
        [("/r/b", "/d/b")] :=
  C2_fault_isolation_rename_only.1 fsRenameFail 0 0 0 "/r/a" "/d/a" [("/r/b", "/d/b")]
    (by decide) (by decide) (by decide) (by decide)

/-! ## C7 — no-op move idempotence -/

/-- C7 counterexample: the entry `("/r/f.txt", "/r/x/../f.txt")` is a
normalized no-op (skipped), yet the run mutates the filesystem: the
unconditional `os.makedirs(os.path.dirname(dest_path))` creates the fresh
directory `/r/x` before the no-op check runs. -/
theorem C7_counterexample_noop_mutates :
    Main.skippedOf (Main.move_files mapNoopDots fsNoop) = 1 ∧
    ¬ Main.fsOf (Main.move_files mapNoopDots fsNoop) = fsNoop ∧
    "/r/x" ∈ (Main.fsOf (Main.move_files mapNoopDots fsNoop)).dirs := by decide

/-- C7 (amended): an entry whose normalized source equals its normalized
destination (source existing, destination parent creatable) increments
`skipped`, never moves or alters any file, and mutates directories only
through the unconditional `os.makedirs` of the destination parent; a
second identical run over the resulting state classifies the entry as
skipped again with the same tally and the same final state. -/
theorem C7_noop_skip_idempotent :
    ∀ (fs : FS) (src dst : String),
      pexists fs src = true →
      normpath src = normpath dst →
      (makedirs fs (dirnamePy dst)).2 = true →
      Main.move_files [(src, dst)] fs =
          .done (makedirs fs (dirnamePy dst)).1 0 1 0 ∧
        (makedirs fs (dirnamePy dst)).1.files = fs.files ∧
        Main.move_files [(src, dst)] (makedirs fs (dirnamePy dst)).1 =
          .done (makedirs fs (dirnamePy dst)).1 0 1 0 := by
  intro fs src dst hex hn hmk
  have hex1 : pexists (makedirs fs (dirnamePy dst)).1 src = true :=
    pexists_mono fs _ src (makedirs_files fs _) (makedirs_dirs_sub fs _) hex
  refine ⟨?_, makedirs_files fs _, ?_⟩
  · unfold Main.move_files
    rw [Main.moveFilesAux_noop fs 0 0 0 src dst [] hmk hex1 hn]
    rfl
  · unfold Main.move_files
    have hidem := makedirs_idem fs (dirnamePy dst) hmk
    have hmk2 : (makedirs (makedirs fs (dirnamePy dst)).1 (dirnamePy dst)).2 = true := by
      rw [hidem]
    have hfix : (makedirs (makedirs fs (dirnamePy dst)).1 (dirnamePy dst)).1 =
        (makedirs fs (dirnamePy dst)).1 := by rw [hidem]
    have hex2 : pexists (makedirs (makedirs fs (dirnamePy dst)).1 (dirnamePy dst)).1 src
        = true := by rw [hfix]; exact hex1
    rw [Main.moveFilesAux_noop _ 0 0 0 src dst [] hmk2 hex2 hn, hfix]
    rfl

/-- Witness for C7: the plain no-op entry `("/r/f.txt", "/r/f.txt")`, whose
destination parent `/r` already exists: skipped once, state unchanged, and
the second run identical. -/
theorem C7_noop_skip_witness :
    Main.move_files [("/r/f.txt", "/r/f.txt")] fsNoop =
        .done (makedirs fsNoop (dirnamePy "/r/f.txt")).1 0 1 0 ∧
      (makedirs fsNoop (dirnamePy "/r/f.txt")).1.files = fsNoop.files ∧
      Main.move_files [("/r/f.txt", "/r/f.txt")] (makedirs fsNoop (dirnamePy "/r/f.txt")).1 =
        .done (makedirs fsNoop (dirnamePy "/r/f.txt")).1 0 1 0 :=
  C7_noop_skip_idempotent fsNoop "/r/f.txt" "/r/f.txt" (by decide) (by decide) (by decide)

/-! ## C10 — destination parent created before the source/no-op checks -/

/-- C10: the engine runs `os.makedirs` on the destination parent before the
source-existence and no-op checks, so even never-moved entries create new
empty destination directories: concretely, a missing-source entry creates
`/newdir` while moving nothing; in general, the missing-source
continuation proceeds from the post-`makedirs` state, whose directory set
extends the original one. -/
theorem C10_mkdir_before_checks :
    (Main.move_files mapMissingNew fsEmptyRoot =
        .done { files := [], dirs := ["/newdir", "/"] } 0 0 0 ∧
      ¬ "/newdir" ∈ fsEmptyRoot.dirs ∧
      "/newdir" ∈ (Main.fsOf (Main.move_files mapMissingNew fsEmptyRoot)).dirs) ∧
    ∀ (fs : FS) (m s e : Nat) (src dst : String) (rest : List (String × String)),
      (makedirs fs (dirnamePy dst)).2 = true →
      pexists (makedirs fs (dirnamePy dst)).1 src = false →
      Main.moveFilesAux fs m s e ((src, dst) :: rest) =
          Main.moveFilesAux (makedirs fs (dirnamePy dst)).1 m s e rest ∧
        fs.dirs ⊆ (makedirs fs (dirnamePy dst)).1.dirs := by
  constructor
  · exact ⟨by decide, by decide, by decide⟩
  · intro fs m s e src dst rest hmk hex
    exact ⟨Main.moveFilesAux_missing fs m s e src dst rest hmk hex,
      makedirs_dirs_sub fs _⟩

/-- Witness for C10: the universal part applied at the concrete
missing-source entry that creates `/newdir`. -/
theorem C10_mkdir_before_checks_witness :
    Main.moveFilesAux fsEmptyRoot 0 0 0 mapMissingNew =
        Main.moveFilesAux (makedirs fsEmptyRoot (dirnamePy "/newdir/missing.txt")).1 0 0 0 [] ∧
      fsEmptyRoot.dirs ⊆ (makedirs fsEmptyRoot (dirnamePy "/newdir/missing.txt")).1.dirs :=
  C10_mkdir_before_checks.2 fsEmptyRoot 0 0 0 "/r/missing.txt" "/newdir/missing.txt" []
    (by decide) (by decide)

/-! ## `main.py`: the Conflict Analyzer (`validate_file_mapping`, lines 16-40) -/

/-- First-match lookup in an association list: reading a Python dict whose
keys are unique by construction. -/
def assocFind {α : Type} : List (String × α) → String → Option α
  | [], _ => none
  | (k', v) :: rest, k => if k' = k then some v else assocFind rest k

namespace Main

/-- The dictionary returned by `validate_file_mapping`. -/
structure ValidationResults where
  destination_conflicts : List (String × List String)
  source_missing : List String
  destination_exists : List String
deriving DecidableEq

/-- The destination-conflict loop of `validate_file_mapping` (`main.py`
lines 25-33): iterate entries in mapping order, remembering in
`dest_paths` the first source seen per normalized destination; on a repeat
destination, open a conflict entry seeded with that first source and
append the current source. -/
def vfmAux : List (String × String) → List (String × String) →
    List (String × List String) → List (String × String) × List (String × List String)
  | [], dest_paths, conflicts => (dest_paths, conflicts)
  | (src, dst) :: rest, dest_paths, conflicts =>
    let nd := normpath dst
    match assocFind dest_paths nd with
    | some first =>
      let conflicts1 := match assocFind conflicts nd with
        | some _ => conflicts
        | none => conflicts ++ [(nd, [first])]
      let conflicts2 := conflicts1.map (fun p => if p.1 = nd then (p.1, p.2 ++ [src]) else p)
      vfmAux rest dest_paths conflicts2
    | none => vfmAux rest (dest_paths ++ [(nd, src)]) conflicts

/-- `main.py: validate_file_mapping(mapping)`: destination conflicts from
the loop above; `source_missing` is every source that does not exist on
disk; `destination_exists` is every destination that exists on disk and
differs from its source after normalization. -/
def validate_file_mapping (fs : FS) (mapping : List (String × String)) : ValidationResults :=
  { destination_conflicts := (vfmAux mapping [] []).2,
    source_missing := (mapping.filter (fun p => pexists fs p.1 = false)).map (·.1),
    destination_exists := (mapping.filter (fun p =>
      pexists fs p.2 && (normpath p.1 != normpath p.2))).map (·.2) }

end Main

/-- The sources of a mapping whose normalized destination is `nd`, in
mapping (first-seen) order. -/
def srcsFor (mapping : List (String × String)) (nd : String) : List String :=
  (mapping.filter (fun p => normpath p.2 == nd)).map (·.1)

/-! ### Association-list lemmas -/

theorem assocFind_append {α : Type} (l1 l2 : List (String × α)) (k : String) :
    assocFind (l1 ++ l2) k =
      match assocFind l1 k with
      | some v => some v
      | none => assocFind l2 k := by
  induction l1 with
  | nil => rfl
  | cons p l1 ih =>
    obtain ⟨k', v⟩ := p
    by_cases h : k' = k
    · simp [assocFind, h]
    · simp [assocFind, h, ih]

theorem assocFind_bump (l : List (String × List String)) (k src : String) :
    assocFind (l.map (fun p => if p.1 = k then (p.1, p.2 ++ [src]) else p)) k =
      (assocFind l k).map (fun v => v ++ [src]) := by
  induction l with
  | nil => rfl
  | cons p l ih =>
    obtain ⟨k', v⟩ := p
    by_cases h : k' = k
    · subst h
      have hhead : (if ((k', v) : String × List String).1 = k' then
          ((k', v).1, (k', v).2 ++ [src]) else (k', v)) = (k', v ++ [src]) := by simp
      rw [List.map_cons, hhead]
      simp [assocFind, ih]
    · have hhead : (if ((k', v) : String × List String).1 = k then
          ((k', v).1, (k', v).2 ++ [src]) else (k', v)) = (k', v) := by simp [h]
      rw [List.map_cons, hhead]
      simp [assocFind, h, ih]

theorem assocFind_bump_ne (l : List (String × List String)) (k k' src : String)
    (h : k' ≠ k) :
    assocFind (l.map (fun p => if p.1 = k then (p.1, p.2 ++ [src]) else p)) k' =
      assocFind l k' := by
  induction l with
  | nil => rfl
  | cons p l ih =>
    obtain ⟨k0, v⟩ := p
    by_cases h0 : k0 = k
    · subst h0
      have hk : ¬ (k0 = k') := fun hh => h hh.symm
      have hhead : (if ((k0, v) : String × List String).1 = k0 then
          ((k0, v).1, (k0, v).2 ++ [src]) else (k0, v)) = (k0, v ++ [src]) := by simp
      rw [List.map_cons, hhead]
      simp [assocFind, hk, ih]
    · have hhead : (if ((k0, v) : String × List String).1 = k then
          ((k0, v).1, (k0, v).2 ++ [src]) else (k0, v)) = (k0, v) := by simp [h0]
      rw [List.map_cons, hhead]
      simp [assocFind, ih]

/-! ### The conflict-loop invariant -/

/-- Invariant of the destination-conflict loop: for each normalized
destination, the accumulators reflect the sources seen so far — nothing
recorded when none seen, only `dest_paths` when one seen, a conflict entry
listing all of them in first-seen order once two or more seen. -/
def ConflictInv (dp : List (String × String)) (cf : List (String × List String))
    (seen : String → List String) : Prop :=
  ∀ nd, (seen nd = [] → assocFind dp nd = none ∧ assocFind cf nd = none) ∧
    (∀ x, seen nd = [x] → assocFind dp nd = some x ∧ assocFind cf nd = none) ∧
    (∀ x y tail, seen nd = x :: y :: tail →
      assocFind dp nd = some x ∧ assocFind cf nd = some (seen nd))

theorem vfmAux_spec (l : List (String × String)) (dp : List (String × String))
    (cf : List (String × List String)) (seen : String → List String)
    (hinv : ConflictInv dp cf seen) :
    ConflictInv (Main.vfmAux l dp cf).1 (Main.vfmAux l dp cf).2
      (fun nd => seen nd ++ srcsFor l nd) := by
  induction l generalizing dp cf seen with
  | nil =>
    simpa only [Main.vfmAux, srcsFor, List.filter_nil, List.map_nil, List.append_nil]
      using hinv
  | cons p l ih =>
    obtain ⟨src, dst⟩ := p
    have hsrcs : ∀ nd, srcsFor ((src, dst) :: l) nd =
        (if normpath dst = nd then [src] else []) ++ srcsFor l nd := by
      intro nd
      by_cases h : normpath dst = nd
      · simp [srcsFor, List.filter_cons, h]
      · simp [srcsFor, List.filter_cons, h]
    have hfun : (fun nd => (if normpath dst = nd then seen nd ++ [src] else seen nd) ++
        srcsFor l nd) = (fun nd => seen nd ++ srcsFor ((src, dst) :: l) nd) := by
      funext nd
      rw [hsrcs nd]
      by_cases h : normpath dst = nd
      · rw [if_pos h, if_pos h, List.append_assoc]
      · rw [if_neg h, if_neg h, List.nil_append]
    cases hdp : assocFind dp (normpath dst) with
    | none =>
      have hseen0 : seen (normpath dst) = [] := by
        rcases hs : seen (normpath dst) with _ | ⟨x, _ | ⟨y, tail⟩⟩
        · rfl
        · have h1 := ((hinv (normpath dst)).2.1 x hs).1
          rw [hdp] at h1; cases h1
        · have h1 := ((hinv (normpath dst)).2.2 x y tail hs).1
          rw [hdp] at h1; cases h1
      have hstep : Main.vfmAux ((src, dst) :: l) dp cf =
          Main.vfmAux l (dp ++ [(normpath dst, src)]) cf := by
        simp only [Main.vfmAux, hdp]
      rw [hstep]
      have hinv1 : ConflictInv (dp ++ [(normpath dst, src)]) cf
          (fun nd => if normpath dst = nd then seen nd ++ [src] else seen nd) := by
        intro nd
        simp only []
        by_cases hnd : normpath dst = nd
        · rw [← hnd, if_pos rfl, hseen0]
          refine ⟨?_, ?_, ?_⟩
          · intro h
            simp at h
          · intro x hx
            have hx' : src = x := by simpa using hx
            subst hx'
            constructor
            · rw [assocFind_append, hdp]
              simp [assocFind]
            · exact ((hinv (normpath dst)).1 hseen0).2
          · intro x y tail h
            simp at h
        · rw [if_neg hnd]
          have hdpn : assocFind (dp ++ [(normpath dst, src)]) nd = assocFind dp nd := by
            rw [assocFind_append]
            cases h : assocFind dp nd with
            | none => simp [assocFind, if_neg hnd]
            | some v => rfl
          refine ⟨fun h => ?_, fun x hx => ?_, fun x y tail h => ?_⟩
          · rw [hdpn]; exact (hinv nd).1 h
          · rw [hdpn]; exact (hinv nd).2.1 x hx
          · rw [hdpn]; exact (hinv nd).2.2 x y tail h
      have hres := ih (dp ++ [(normpath dst, src)]) cf _ hinv1
      rw [hfun] at hres
      exact hres
    | some first =>
      have hne : seen (normpath dst) ≠ [] := by
        intro hs
        have h1 := ((hinv (normpath dst)).1 hs).1
        rw [hdp] at h1; cases h1
      have hhead : ∃ tail, seen (normpath dst) = first :: tail := by
        rcases hs : seen (normpath dst) with _ | ⟨x, _ | ⟨y, tail⟩⟩
        · exact absurd hs hne
        · have h1 := ((hinv (normpath dst)).2.1 x hs).1
          rw [hdp] at h1
          refine ⟨[], ?_⟩
          rw [Option.some.inj h1]
        · have h1 := ((hinv (normpath dst)).2.2 x y tail hs).1
          rw [hdp] at h1
          refine ⟨y :: tail, ?_⟩
          rw [Option.some.inj h1]
      obtain ⟨tl, hseen⟩ := hhead
      have hcf2 : ∀ cf2, assocFind cf2 (normpath dst) =
            some (seen (normpath dst) ++ [src]) →
          (∀ nd, nd ≠ normpath dst → assocFind cf2 nd = assocFind cf nd) →
          ConflictInv dp cf2
            (fun nd => if normpath dst = nd then seen nd ++ [src] else seen nd) := by
        intro cf2 hc2 hc2n
        intro nd
        simp only []
        by_cases hnd : normpath dst = nd
        · rw [← hnd, if_pos rfl]
          refine ⟨?_, ?_, ?_⟩
          · intro h
            rw [hseen] at h
            simp at h
          · intro x hx
            rw [hseen] at hx
            rcases tl with _ | ⟨a, b⟩
            · simp at hx
            · simp at hx
          · intro x y tail h
            constructor
            · rw [hseen, List.cons_append] at h
              injection h with h1 h2
              rw [← h1]
              exact hdp
            · exact hc2
        · rw [if_neg hnd]
          have hcn := hc2n nd (fun h => hnd h.symm)
          refine ⟨fun h => ?_, fun x hx => ?_, fun x y tail h => ?_⟩
          · rw [hcn]; exact (hinv nd).1 h
          · rw [hcn]; exact (hinv nd).2.1 x hx
          · rw [hcn]; exact (hinv nd).2.2 x y tail h
      cases hcf : assocFind cf (normpath dst) with
      | none =>
        have htl : tl = [] := by
          cases htl : tl with
          | nil => rfl
          | cons y tail =>
            rw [htl] at hseen
            have h1 := ((hinv (normpath dst)).2.2 first y tail hseen).2
            rw [hcf] at h1; cases h1
        subst htl
        have hstep : Main.vfmAux ((src, dst) :: l) dp cf =
            Main.vfmAux l dp ((cf ++ [(normpath dst, [first])]).map
              (fun p => if p.1 = normpath dst then (p.1, p.2 ++ [src]) else p)) := by
          simp only [Main.vfmAux, hdp, hcf]
        rw [hstep]
        have hc2 : assocFind ((cf ++ [(normpath dst, [first])]).map
              (fun p => if p.1 = normpath dst then (p.1, p.2 ++ [src]) else p))
              (normpath dst) = some (seen (normpath dst) ++ [src]) := by
          rw [assocFind_bump, assocFind_append, hcf, hseen]
          simp [assocFind]
        have hc2n : ∀ nd, nd ≠ normpath dst →
            assocFind ((cf ++ [(normpath dst, [first])]).map
              (fun p => if p.1 = normpath dst then (p.1, p.2 ++ [src]) else p)) nd =
            assocFind cf nd := by
          intro nd hnd
          rw [assocFind_bump_ne _ _ _ _ hnd, assocFind_append]
          cases h : assocFind cf nd with
          | none =>
            have h2 : ¬ (normpath dst = nd) := fun hh => hnd hh.symm
            simp [assocFind, h2]
          | some v => rfl
        have hres := ih dp _ _ (hcf2 _ hc2 hc2n)
        rw [hfun] at hres
        exact hres
      | some cur =>
        have hcur : cur = seen (normpath dst) := by
          cases htl : tl with
          | nil =>
            rw [htl] at hseen
            have h1 := ((hinv (normpath dst)).2.1 first hseen).2
            rw [hcf] at h1; cases h1
          | cons y tail =>
            rw [htl] at hseen
            have h1 := ((hinv (normpath dst)).2.2 first y tail hseen).2
            rw [hcf] at h1
            exact Option.some.inj h1
        have hstep : Main.vfmAux ((src, dst) :: l) dp cf =
            Main.vfmAux l dp (cf.map
              (fun p => if p.1 = normpath dst then (p.1, p.2 ++ [src]) else p)) := by
          simp only [Main.vfmAux, hdp, hcf]
        rw [hstep]
        have hc2 : assocFind (cf.map
              (fun p => if p.1 = normpath dst then (p.1, p.2 ++ [src]) else p))
              (normpath dst) = some (seen (normpath dst) ++ [src]) := by
          rw [assocFind_bump, hcf, hcur]
          rfl
        have hc2n : ∀ nd, nd ≠ normpath dst →
            assocFind (cf.map
              (fun p => if p.1 = normpath dst then (p.1, p.2 ++ [src]) else p)) nd =
            assocFind cf nd := by
          intro nd hnd
          exact assocFind_bump_ne _ _ _ _ hnd
        have hres := ih dp _ _ (hcf2 _ hc2 hc2n)
        rw [hfun] at hres
        exact hres

/-! ## C5 — conflict-detection soundness -/

/-- The mapping of the C5 scenario, iterated in the given order. -/
def mapConflict : List (String × String) := [("a.txt", "/x/a.txt"), ("b.txt", "/x/a.txt")]

/-- C5: `validate_file_mapping` reports the destination conflict of the
two-entry scenario keyed by the normalized destination `/x/a.txt` with
sources exactly `["a.txt", "b.txt"]` in first-seen order; in general every
normalized destination with two or more mapped sources is reported with
all its sources in mapping order, and a destination with at most one
mapped source is never reported. -/
theorem C5_conflict_detection_sound :
    (Main.validate_file_mapping fsEmptyRoot mapConflict).destination_conflicts =
        [("/x/a.txt", ["a.txt", "b.txt"])] ∧
    ∀ (fs : FS) (mapping : List (String × String)) (nd : String),
      (2 ≤ (srcsFor mapping nd).length →
        assocFind (Main.validate_file_mapping fs mapping).destination_conflicts nd =
          some (srcsFor mapping nd)) ∧
      ((srcsFor mapping nd).length ≤ 1 →
        assocFind (Main.validate_file_mapping fs mapping).destination_conflicts nd =
          none) := by
  constructor
  · decide
  · intro fs mapping nd
    have hinv0 : ConflictInv [] [] (fun _ => []) := by
      intro nd
      refine ⟨fun _ => ⟨rfl, rfl⟩, ?_, ?_⟩
      · intro x hx
        simp at hx
      · intro x y tail h
        simp at h
    have hres := vfmAux_spec mapping [] [] _ hinv0 nd
    simp only [List.nil_append] at hres
    constructor
    · intro hlen
      rcases hs : srcsFor mapping nd with _ | ⟨x, _ | ⟨y, tail⟩⟩
      · rw [hs] at hlen; simp at hlen
      · rw [hs] at hlen; simp at hlen
      · have h3 := (hres.2.2 x y tail hs).2
        rw [hs] at h3
        simpa only [Main.validate_file_mapping] using h3
    · intro hlen
      rcases hs : srcsFor mapping nd with _ | ⟨x, _ | ⟨y, tail⟩⟩
      · have h3 := (hres.1 hs).2
        simpa only [Main.validate_file_mapping] using h3
      · have h3 := (hres.2.1 x hs).2
        simpa only [Main.validate_file_mapping] using h3
      · rw [hs] at hlen; simp at hlen

/-- Witness for C5: the universal part applied to the concrete two-entry
conflict mapping at the destination `/x/a.txt`. -/
theorem C5_conflict_detection_witness :
    assocFind (Main.validate_file_mapping fsEmptyRoot mapConflict).destination_conflicts
      "/x/a.txt" = some (srcsFor mapConflict "/x/a.txt") :=
  (C5_conflict_detection_sound.2 fsEmptyRoot mapConflict "/x/a.txt").1 (by decide)


/-! ## `src/ai_utils.py`: the retry wrapper (`_handle_api_exceptions`, lines 23-44) -/

namespace AIUtils

/-- The `litellm` exception taxonomy as the handler distinguishes it. -/
inductive ApiErr where
  | rateLimit
  | timeout
  | serviceUnavailable
  | auth
  | badRequest
  | apiError
  | connection
  | other
deriving DecidableEq

/-- The transient classes (`RateLimitError`, `Timeout`,
`ServiceUnavailableError`). -/
def isTransient : ApiErr → Bool
  | .rateLimit => true
  | .timeout => true
  | .serviceUnavailable => true
  | _ => false

/-- What `_handle_api_exceptions` does with one exception. -/
inductive HandlerOutcome where
  | retry
  | raiseModelConnection
  | raiseAIUtils
  | notHandled
deriving DecidableEq

/-- `src/ai_utils.py: _handle_api_exceptions(e, retries, max_retries,
retry_delay)`: retry (after a fixed `time.sleep(retry_delay)`) while the
error is transient and the retry budget remains; otherwise raise
`ModelConnectionError` for authentication, exhausted-transient, API and
connection errors, `AIUtilsError` for a bad request, and fall through
(`return False`) for anything else. -/
def handle_api_exceptions (e : ApiErr) (retries max_retries : Nat) : HandlerOutcome :=
  if isTransient e = true ∧ retries < max_retries then .retry
  else if e = .auth then .raiseModelConnection
  else if isTransient e = true then .raiseModelConnection
  else if e = .badRequest then .raiseAIUtils
  else if e = .apiError then .raiseModelConnection
  else if e = .connection then .raiseModelConnection
  else .notHandled

/-- One attempt of the guarded call either returns a completion or raises. -/
inductive Attempt where
  | success
  | fail (e : ApiErr)

/-- How a whole guarded call ends, with the number of attempts made. -/
inductive CallResult where
  | ok (attempts : Nat)
  | modelConnectionError (attempts : Nat)
  | aiUtilsError (attempts : Nat)
deriving DecidableEq

/-- The `while True` retry loop shared by `ai_generate_image_caption`,
`ai_generate_text_summary` and `ai_map_file_to_directory`: run the attempt;
on an exception consult the handler; `retry` increments `retries` and
loops, a raise escapes, and an unhandled exception is wrapped into
`AIUtilsError` by the caller.  `attempt i` is the outcome of call `i`;
the fuel only bounds the recursion and never runs out when it starts at
`max_retries + 1`, because each retry consumes budget. -/
def requestLoop (attempt : Nat → Attempt) (maxr : Nat) : Nat → Nat → CallResult
  | retries, 0 => .aiUtilsError (retries + 1)
  | retries, fuel+1 =>
    match attempt retries with
    | .success => .ok (retries + 1)
    | .fail e =>
      match handle_api_exceptions e retries maxr with
      | .retry => requestLoop attempt maxr (retries + 1) fuel
      | .raiseModelConnection => .modelConnectionError (retries + 1)
      | .raiseAIUtils => .aiUtilsError (retries + 1)
      | .notHandled => .aiUtilsError (retries + 1)

/-- A guarded model call with retry budget `maxr` (the functions default
`max_retries = 2`). -/
def guardedCall (attempt : Nat → Attempt) (maxr : Nat) : CallResult :=
  requestLoop attempt maxr 0 (maxr + 1)

theorem isTransient_ne_auth (e : ApiErr) (h : isTransient e = true) : e ≠ .auth := by
  cases e <;> simp_all [isTransient]

theorem requestLoop_transient (attempt : Nat → Attempt) (maxr : Nat)
    (h : ∀ i, ∃ e, attempt i = .fail e ∧ isTransient e = true) :
    ∀ fuel retries, retries + fuel = maxr + 1 → retries ≤ maxr →
      requestLoop attempt maxr retries fuel = .modelConnectionError (maxr + 1) := by
  intro fuel
  induction fuel with
  | zero => intro retries hr hle; omega
  | succ fuel ih =>
    intro retries hr hle
    obtain ⟨e, he, ht⟩ := h retries
    by_cases hlt : retries < maxr
    · have hh : handle_api_exceptions e retries maxr = .retry := by
        unfold handle_api_exceptions
        rw [if_pos ⟨ht, hlt⟩]
      simp only [requestLoop, he, hh]
      exact ih (retries + 1) (by omega) (by omega)
    · have hre : retries = maxr := by omega
      have hh : handle_api_exceptions e retries maxr = .raiseModelConnection := by
        unfold handle_api_exceptions
        rw [if_neg (by intro hc; exact hlt hc.2), if_neg (isTransient_ne_auth e ht),
          if_pos ht]
      simp only [requestLoop, he, hh]
      rw [hre]

end AIUtils

/-! ## C8 — retry policy -/

/-- C8: a transient error (rate limit, timeout, service unavailable) is
retried with the fixed delay until the budget `max_retries` is exhausted
and then escalated to `ModelConnectionError` — with the default budget 2
that is exactly 3 attempts — while an authentication error raises
`ModelConnectionError` and a bad request raises `AIUtilsError` on the very
first attempt, with no retry. -/
theorem C8_retry_policy_bounded :
    (∀ (attempt : Nat → AIUtils.Attempt) (maxr : Nat),
      (∀ i, ∃ e, attempt i = .fail e ∧ AIUtils.isTransient e = true) →
      AIUtils.guardedCall attempt maxr = .modelConnectionError (maxr + 1)) ∧
    (∀ attempt : Nat → AIUtils.Attempt,
      (∀ i, attempt i = .fail .rateLimit) →
      AIUtils.guardedCall attempt 2 = .modelConnectionError 3) ∧
    (∀ (attempt : Nat → AIUtils.Attempt) (maxr : Nat),
      attempt 0 = .fail .auth →
      AIUtils.guardedCall attempt maxr = .modelConnectionError 1) ∧
    (∀ (attempt : Nat → AIUtils.Attempt) (maxr : Nat),
      attempt 0 = .fail .badRequest →
      AIUtils.guardedCall attempt maxr = .aiUtilsError 1) := by
  refine ⟨?_, ?_, ?_, ?_⟩
  · intro attempt maxr h
    exact AIUtils.requestLoop_transient attempt maxr h (maxr + 1) 0 (by omega) (by omega)
  · intro attempt h
    exact AIUtils.requestLoop_transient attempt 2
      (fun i => ⟨.rateLimit, h i, rfl⟩) 3 0 (by omega) (by omega)
  · intro attempt maxr h
    have hh : AIUtils.handle_api_exceptions .auth 0 maxr = .raiseModelConnection := by
      unfold AIUtils.handle_api_exceptions
      rw [if_neg (by intro hc; cases hc.1), if_pos rfl]
    simp only [AIUtils.guardedCall, AIUtils.requestLoop, h, hh]
  · intro attempt maxr h
    have hh : AIUtils.handle_api_exceptions .badRequest 0 maxr = .raiseAIUtils := by
      unfold AIUtils.handle_api_exceptions
      rw [if_neg (by intro hc; cases hc.1), if_neg (by simp),
        if_neg (by simp [AIUtils.isTransient]), if_pos rfl]
    simp only [AIUtils.guardedCall, AIUtils.requestLoop, h, hh]

/-- Witness for C8: a call failing with rate limits forever escalates after
3 attempts under the default budget; a first-attempt authentication or
bad-request error surfaces immediately. -/
theorem C8_retry_policy_witness :
    AIUtils.guardedCall (fun _ => .fail .rateLimit) 2 = .modelConnectionError 3 ∧
    AIUtils.guardedCall (fun _ => .fail .auth) 2 = .modelConnectionError 1 ∧
    AIUtils.guardedCall (fun _ => .fail .badRequest) 2 = .aiUtilsError 1 :=
  ⟨C8_retry_policy_bounded.2.1 (fun _ => .fail .rateLimit) (fun _ => rfl),
   C8_retry_policy_bounded.2.2.1 (fun _ => .fail .auth) 2 rfl,
   C8_retry_policy_bounded.2.2.2 (fun _ => .fail .badRequest) 2 rfl⟩

/-! ## `main.py`: the per-file mapper (`map_files_to_directories`, lines 120-148) -/

namespace Main

/-- Python dict write `d[k] = v` (also `d.update({k: v})`): replace the
value in place when the key exists, else append. -/
def dictInsert (d : List (String × String)) (k v : String) : List (String × String) :=
  if d.any (fun p => p.1 == k) then d.map (fun p => if p.1 = k then (k, v) else p)
  else d ++ [(k, v)]

/-- `main.py: map_files_to_directories`: for each file ask the model for a
target directory (`ai_map_file_to_directory` returns
`{file["relative_path"]: target}` which is merged by `update`); on any
exception increment the error count and write the fallback
`os.path.dirname(file["relative_path"])` — the code's own comment reads
"Add a default mapping to keep the file where it is" (lines 140-141).  The
oracle stands for the model call: `some target`, or `none` for a raised
exception. -/
def map_files_to_directories (files : List String) (oracle : String → Option String) :
    List (String × String) × Nat :=
  files.foldl (fun acc f =>
    match oracle f with
    | some tgt => (dictInsert acc.1 f tgt, acc.2)
    | none => (dictInsert acc.1 f (dirnamePy f), acc.2 + 1)) ([], 0)

end Main

theorem assocFind_setAll_self (d : List (String × String)) (k v : String)
    (h : d.any (fun p => p.1 == k) = true) :
    assocFind (d.map (fun p => if p.1 = k then (k, v) else p)) k = some v := by
  induction d with
  | nil => cases h
  | cons q d ih =>
    obtain ⟨k0, v0⟩ := q
    by_cases h0 : k0 = k
    · have hhead : (if ((k0, v0) : String × String).1 = k then (k, v)
          else (k0, v0)) = (k, v) := by simp [h0]
      rw [List.map_cons, hhead]
      simp [assocFind]
    · have hhead : (if ((k0, v0) : String × String).1 = k then (k, v)
          else (k0, v0)) = (k0, v0) := by simp [h0]
      rw [List.map_cons, hhead]
      have h2 : d.any (fun p => p.1 == k) = true := by
        rcases List.any_eq_true.1 h with ⟨p, hp, hpk⟩
        rcases List.mem_cons.1 hp with rfl | hp2
        · simp at hpk
          exact absurd hpk h0
        · exact List.any_eq_true.2 ⟨p, hp2, hpk⟩
      simp only [assocFind, if_neg h0]
      exact ih h2

theorem assocFind_setAll_ne (d : List (String × String)) (k v k' : String) (h : k' ≠ k) :
    assocFind (d.map (fun p => if p.1 = k then (k, v) else p)) k' = assocFind d k' := by
  induction d with
  | nil => rfl
  | cons q d ih =>
    obtain ⟨k0, v0⟩ := q
    by_cases h0 : k0 = k
    · subst h0
      have hhead : (if ((k0, v0) : String × String).1 = k0 then (k0, v)
          else (k0, v0)) = (k0, v) := by simp
      rw [List.map_cons, hhead]
      have hk : ¬ (k0 = k') := fun hh => h hh.symm
      simp [assocFind, hk, ih]
    · have hhead : (if ((k0, v0) : String × String).1 = k then (k, v)
          else (k0, v0)) = (k0, v0) := by simp [h0]
      rw [List.map_cons, hhead]
      simp only [assocFind]
      by_cases h1 : k0 = k'
      · rw [if_pos h1, if_pos h1]
      · rw [if_neg h1, if_neg h1]
        exact ih

theorem dictInsert_self (d : List (String × String)) (k v : String) :
    assocFind (Main.dictInsert d k v) k = some v := by
  unfold Main.dictInsert
  split
  · rename_i h
    exact assocFind_setAll_self d k v h
  · rw [assocFind_append]
    cases h : assocFind d k with
    | some v0 =>
      rename_i hany
      exfalso
      apply hany
      clear hany
      induction d with
      | nil => cases h
      | cons q d ih =>
        obtain ⟨k0, v0'⟩ := q
        by_cases h0 : k0 = k
        · exact List.any_eq_true.2 ⟨(k0, v0'), List.mem_cons_self _ _, by simp [h0]⟩
        · simp only [assocFind, if_neg h0] at h
          rcases List.any_eq_true.1 (ih h) with ⟨p, hp, hpk⟩
          exact List.any_eq_true.2 ⟨p, List.mem_cons_of_mem _ hp, hpk⟩
    | none => simp [assocFind]

theorem dictInsert_ne (d : List (String × String)) (k v k' : String) (h : k' ≠ k) :
    assocFind (Main.dictInsert d k v) k' = assocFind d k' := by
  unfold Main.dictInsert
  split
  · exact assocFind_setAll_ne d k v k' h
  · rw [assocFind_append]
    cases h2 : assocFind d k' with
    | some v0 => rfl
    | none =>
      have hk : ¬ (k = k') := fun hh => h hh.symm
      simp [assocFind, hk]

theorem mftd_preserve (files : List String) (oracle : String → Option String)
    (d : List (String × String)) (e : Nat) (f : String) (hf : f ∉ files) :
    assocFind (files.foldl (fun acc g =>
      match oracle g with
      | some tgt => (Main.dictInsert acc.1 g tgt, acc.2)
      | none => (Main.dictInsert acc.1 g (dirnamePy g), acc.2 + 1)) (d, e)).1 f =
      assocFind d f := by
  induction files generalizing d e with
  | nil => rfl
  | cons g gs ih =>
    have hgf : f ≠ g := fun hh => hf (hh ▸ List.mem_cons_self _ _)
    have hfs : f ∉ gs := fun hh => hf (List.mem_cons_of_mem _ hh)
    simp only [List.foldl_cons]
    cases ho : oracle g with
    | some tgt =>
      rw [ih _ _ hfs]
      exact dictInsert_ne d g tgt f hgf
    | none =>
      rw [ih _ _ hfs]
      exact dictInsert_ne d g _ f hgf

theorem mftd_lookup (files : List String) (oracle : String → Option String)
    (d : List (String × String)) (e : Nat) (f : String) (hf : f ∈ files)
    (hnd : files.Nodup) (hnone : oracle f = none) :
    assocFind (files.foldl (fun acc g =>
      match oracle g with
      | some tgt => (Main.dictInsert acc.1 g tgt, acc.2)
      | none => (Main.dictInsert acc.1 g (dirnamePy g), acc.2 + 1)) (d, e)).1 f =
      some (dirnamePy f) := by
  induction files generalizing d e with
  | nil => cases hf
  | cons g gs ih =>
    rcases List.mem_cons.1 hf with rfl | hmem
    · have hgs : f ∉ gs := (List.nodup_cons.1 hnd).1
      simp only [List.foldl_cons, hnone]
      rw [mftd_preserve gs oracle _ _ f hgs]
      exact dictInsert_self d f (dirnamePy f)
    · have hnd2 : gs.Nodup := (List.nodup_cons.1 hnd).2
      cases ho : oracle g with
      | some tgt =>
        simp only [List.foldl_cons, ho]
        exact ih _ _ hmem hnd2
      | none =>
        simp only [List.foldl_cons, ho]
        exact ih _ _ hmem hnd2

theorem mftd_count (files : List String) (oracle : String → Option String)
    (d : List (String × String)) (e : Nat) :
    (files.foldl (fun acc g =>
      match oracle g with
      | some tgt => (Main.dictInsert acc.1 g tgt, acc.2)
      | none => (Main.dictInsert acc.1 g (dirnamePy g), acc.2 + 1)) (d, e)).2 =
      e + (files.filter (fun g => (oracle g).isNone)).length := by
  induction files generalizing d e with
  | nil => simp
  | cons g gs ih =>
    simp only [List.foldl_cons, List.filter_cons]
    cases ho : oracle g with
    | some tgt =>
      rw [ih]
      simp [ho]
    | none =>
      rw [ih]
      simp [ho]
      omega

/-! ## C6 — fallback destination fabricated on mapping failure -/

/-- C6 counterexample: when the per-file model call fails for
`docs/a.txt`, `map_files_to_directories` records one error and returns a
mapping that sends the file to `os.path.dirname("docs/a.txt") = "docs"` —
its current directory — instead of failing the build. -/
theorem C6_counterexample_default_in_place :
    Main.map_files_to_directories ["docs/a.txt"] (fun _ => none) =
        ([("docs/a.txt", "docs")], 1) ∧
      dirnamePy "docs/a.txt" = "docs" := by decide

/-- C6 (amended): when a file's per-file mapping call fails,
`map_files_to_directories` does not fail the build: it counts the error
and maps the file to the dirname of its relative path (the "keep the file
where it is" fallback); the error count is exactly the number of failing
files. -/
theorem C6_failure_fallback_current_dir :
    ∀ (files : List String) (oracle : String → Option String),
      (files.Nodup → ∀ f ∈ files, oracle f = none →
        assocFind (Main.map_files_to_directories files oracle).1 f =
          some (dirnamePy f)) ∧
      (Main.map_files_to_directories files oracle).2 =
        (files.filter (fun g => (oracle g).isNone)).length := by
  intro files oracle
  constructor
  · intro hnd f hf hnone
    exact mftd_lookup files oracle [] 0 f hf hnd hnone
  · have hc := mftd_count files oracle [] 0
    simpa [Main.map_files_to_directories] using hc

/-- Witness for C6: the amended statement at the concrete failing file. -/
theorem C6_failure_fallback_witness :
    assocFind (Main.map_files_to_directories ["docs/a.txt"] (fun _ => none)).1
      "docs/a.txt" = some (dirnamePy "docs/a.txt") :=
  (C6_failure_fallback_current_dir ["docs/a.txt"] (fun _ => none)).1
    (by decide) "docs/a.txt" (by decide) rfl


/-! ## `llm_file_organizer.py`: the reconciler (`main_two_step`, lines 124-131) -/

namespace Organizer

/-- Modelled from the spec: the two-step `validate_file_mapping` that
`llm_file_organizer.py` imports from `src.ai_utils` but that is absent
from the repository sources.  Per §4.2 it computes
`missing = {paths} - keys(mapping)` and returns the included and the
missing original paths. -/
def validate_file_mapping (paths : List String) (mapping : List (String × String)) :
    List String × List String :=
  (paths.filter (fun p => (mapping.map (·.1)).contains p),
   paths.filter (fun p => !(mapping.map (·.1)).contains p))

/-- Python `dict.update` merging: keys of `upd` override in place, new keys
append in `upd` order. -/
def dictUpdate (d upd : List (String × String)) : List (String × String) :=
  upd.foldl (fun acc p => Main.dictInsert acc p.1 p.2) d

/-- Modelled from the spec: `ai_fix_missing_files` (imported from
`src.ai_utils`, absent from the sources): issues one targeted repair
request carrying the missing paths and merges the repair response into the
mapping, repair entries taking precedence on key collision (§4.2). -/
def ai_fix_missing_files (mapping : List (String × String)) (missing : List String)
    (oracle : List String → List (String × String)) : List (String × String) :=
  dictUpdate mapping (oracle missing)

/-- How the reconciliation step of `main_two_step` ends. -/
inductive ReconcileOutcome where
  | proceed (mapping : List (String × String))
  | failed
deriving DecidableEq

/-- `llm_file_organizer.py: main_two_step`, lines 124-131: validate; when
files are missing, call `ai_fix_missing_files` once with exactly the
missing set, re-validate, and print the permanent "Failed to fix missing
files" error and return when files are still missing.  The second
component is the trace of repair requests (each element the missing set
passed to the model). -/
def reconcile (paths : List String) (mapping : List (String × String))
    (oracle : List String → List (String × String)) :
    ReconcileOutcome × List (List String) :=
  let missing := (validate_file_mapping paths mapping).2
  if missing ≠ [] then
    let mapping2 := ai_fix_missing_files mapping missing oracle
    let missing2 := (validate_file_mapping paths mapping2).2
    if missing2 ≠ [] then (.failed, [missing])
    else (.proceed mapping2, [missing])
  else (.proceed mapping, [])

end Organizer

/-! ## C4 — single-repair reconciliation -/

/-- C4: the reconciler issues at most one repair request; when the initial
mapping misses files it issues exactly one, carrying exactly the missing
set; when nothing is missing it issues none and proceeds unchanged; if
files are still missing after the merge it fails permanently; and any
mapping it proceeds with covers every input path. -/
theorem C4_single_repair_reconciliation :
    ∀ (paths : List String) (mapping : List (String × String))
      (oracle : List String → List (String × String)),
      (Organizer.reconcile paths mapping oracle).2.length ≤ 1 ∧
      ((Organizer.validate_file_mapping paths mapping).2 ≠ [] →
        (Organizer.reconcile paths mapping oracle).2 =
          [(Organizer.validate_file_mapping paths mapping).2]) ∧
      ((Organizer.validate_file_mapping paths mapping).2 = [] →
        Organizer.reconcile paths mapping oracle = (.proceed mapping, [])) ∧
      ((Organizer.validate_file_mapping paths mapping).2 ≠ [] →
        (Organizer.validate_file_mapping paths
            (Organizer.ai_fix_missing_files mapping
              (Organizer.validate_file_mapping paths mapping).2 oracle)).2 ≠ [] →
        (Organizer.reconcile paths mapping oracle).1 = .failed) ∧
      (∀ m', (Organizer.reconcile paths mapping oracle).1 = .proceed m' →
        ∀ p ∈ paths, (m'.map (·.1)).contains p = true) := by
  intro paths mapping oracle
  by_cases h1 : (Organizer.validate_file_mapping paths mapping).2 = []
  · have hstep : Organizer.reconcile paths mapping oracle = (.proceed mapping, []) := by
      simp only [Organizer.reconcile]
      rw [if_neg (by simpa using h1)]
    refine ⟨by rw [hstep]; simp, fun hc => absurd h1 hc, fun _ => hstep, ?_, ?_⟩
    · intro hc
      exact absurd h1 hc
    · intro m' hm' p hp
      rw [hstep] at hm'
      have hmm : mapping = m' := by
        injection hm'
      subst hmm
      have hall := List.filter_eq_nil_iff.1 h1 p hp
      simpa using hall
  · by_cases h2 : (Organizer.validate_file_mapping paths
        (Organizer.ai_fix_missing_files mapping
          (Organizer.validate_file_mapping paths mapping).2 oracle)).2 = []
    · have hstep : Organizer.reconcile paths mapping oracle =
          (.proceed (Organizer.ai_fix_missing_files mapping
            (Organizer.validate_file_mapping paths mapping).2 oracle),
           [(Organizer.validate_file_mapping paths mapping).2]) := by
        simp only [Organizer.reconcile]
        rw [if_pos h1, if_neg (by simpa using h2)]
      refine ⟨by rw [hstep]; simp, fun _ => by rw [hstep], fun hc => absurd hc h1, ?_, ?_⟩
      · intro _ hc
        exact absurd h2 hc
      · intro m' hm' p hp
        rw [hstep] at hm'
        have hmm : Organizer.ai_fix_missing_files mapping
            (Organizer.validate_file_mapping paths mapping).2 oracle = m' := by
          injection hm'
        subst hmm
        have hall := List.filter_eq_nil_iff.1 h2 p hp
        simpa using hall
    · have hstep : Organizer.reconcile paths mapping oracle =
          (.failed, [(Organizer.validate_file_mapping paths mapping).2]) := by
        simp only [Organizer.reconcile]
        rw [if_pos h1, if_pos h2]
      refine ⟨by rw [hstep]; simp, fun _ => by rw [hstep], fun hc => absurd hc h1,
        fun _ _ => by rw [hstep], ?_⟩
      intro m' hm'
      rw [hstep] at hm'
      cases hm'

/-- Witness for C4: a run with one missing file issues exactly the one
repair request carrying it, and the repaired mapping proceeds. -/
theorem C4_single_repair_witness :
    (Organizer.reconcile ["a.txt", "b.txt"] [("a.txt", "/x")]
        (fun _ => [("b.txt", "/y")])).2 =
      [(Organizer.validate_file_mapping ["a.txt", "b.txt"] [("a.txt", "/x")]).2] :=
  (C4_single_repair_reconciliation ["a.txt", "b.txt"] [("a.txt", "/x")]
    (fun _ => [("b.txt", "/y")])).2.1 (by decide)

/-! ## The missing-file validation tails (`src/generate_structure_proposal.py`
and `ai_suggest_file_structure.py`) -/

namespace Proposal

/-- How the validation tail of a proposal run ends: the checkpoint is
saved, or the process exits with `sys.exit(code)` after printing
`output`. -/
inductive RunOutcome where
  | saved (mapping : List (String × String))
  | exited (code : Nat) (output : List String)
deriving DecidableEq

/-- `missing_files = set(original_files) - set(proposed_files)`, kept here
in original-list order (the Python set is unordered; only membership and
emptiness matter). -/
def missingOf (files : List String) (mapping : List (String × String)) : List String :=
  files.filter (fun p => !(mapping.map (·.1)).contains p)

/-- Insert into a sorted list of strings (ascending). -/
def insertStr (x : String) : List String → List String
  | [] => [x]
  | y :: ys => if x < y then x :: y :: ys else y :: insertStr x ys

/-- `sorted(...)` over strings, as insertion sort. -/
def sortStr (l : List String) : List String := l.foldr insertStr []

/-- `src/generate_structure_proposal.py: generate_structure_proposal`,
validation tail (lines 196-212): on missing files the `MissingFilesError`
is caught and the process does `sys.exit(2)` printing nothing; otherwise
the mapping is written to the checkpoint file and returned. -/
def generate_structure_proposal (files : List String)
    (mapping : List (String × String)) : RunOutcome :=
  let missing := missingOf files mapping
  if missing ≠ [] then .exited 2 []
  else .saved mapping

/-- `ai_suggest_file_structure.py: main`, validation tail (lines 198-226):
on missing files print the error header, the exception message, and one
`  - {file}` line per missing file in sorted order, then `sys.exit(2)`;
otherwise the mapping is saved. -/
def ai_suggest_main (files : List String) (mapping : List (String × String)) :
    RunOutcome :=
  let missing := missingOf files mapping
  if missing ≠ [] then
    .exited 2 (["=== MISSING FILES ERROR ===",
      "✗ " ++ toString missing.length ++ " files missing from proposed structure:"] ++
      (sortStr missing).map (fun f => "  - " ++ f))
  else .saved mapping

/-- The exit code of an outcome, when the run exited. -/
def codeOf : RunOutcome → Option Nat
  | .saved _ => none
  | .exited c _ => some c

/-- The printed error output of an outcome. -/
def outputOf : RunOutcome → List String
  | .saved _ => []
  | .exited _ out => out

theorem mem_insertStr (x a : String) (l : List String) (h : a ∈ l ∨ a = x) :
    a ∈ insertStr x l := by
  induction l with
  | nil =>
    rcases h with h | h
    · cases h
    · rw [h]; exact List.mem_cons_self _ _
  | cons y ys ih =>
    simp only [insertStr]
    split
    · rcases h with h | h
      · exact List.mem_cons_of_mem _ h
      · rw [h]; exact List.mem_cons_self _ _
    · rcases h with h | h
      · rcases List.mem_cons.1 h with rfl | h2
        · exact List.mem_cons_self _ _
        · exact List.mem_cons_of_mem _ (ih (Or.inl h2))
      · exact List.mem_cons_of_mem _ (ih (Or.inr h))

theorem mem_sortStr (a : String) (l : List String) (h : a ∈ l) : a ∈ sortStr l := by
  induction l with
  | nil => cases h
  | cons y ys ih =>
    simp only [sortStr, List.foldr_cons]
    rcases List.mem_cons.1 h with rfl | h2
    · exact mem_insertStr a a _ (Or.inr rfl)
    · exact mem_insertStr y a _ (Or.inl (ih h2))

end Proposal

/-! ## C9 — incomplete-mapping exit code and diagnostics -/

/-- C9 counterexample: `generate_structure_proposal` with the single file
`a.txt` absent from the mapping exits with code 2 but prints nothing — the
missing path is not enumerated anywhere in its error output. -/
theorem C9_counterexample_silent_exit :
    Proposal.generate_structure_proposal ["a.txt"] [] = .exited 2 [] ∧
    Proposal.missingOf ["a.txt"] [] ≠ [] := by decide

/-- C9 (amended): a run whose mapping still misses files exits with code 2
(distinct from the code-1 fatal paths) in both entry points;
`ai_suggest_file_structure.main` enumerates every missing path as a
`  - {path}` line of the error output, while
`generate_structure_proposal` exits 2 without printing the missing
paths. -/
theorem C9_exit_code_two_enumeration :
    ∀ (files : List String) (mapping : List (String × String)),
      Proposal.missingOf files mapping ≠ [] →
      Proposal.generate_structure_proposal files mapping = .exited 2 [] ∧
      Proposal.codeOf (Proposal.ai_suggest_main files mapping) = some 2 ∧
      ∀ m ∈ Proposal.missingOf files mapping,
        ("  - " ++ m) ∈ Proposal.outputOf (Proposal.ai_suggest_main files mapping) := by
  intro files mapping h
  refine ⟨?_, ?_, ?_⟩
  · simp only [Proposal.generate_structure_proposal]
    rw [if_pos h]
  · simp only [Proposal.ai_suggest_main]
    rw [if_pos h]
    rfl
  · intro m hm
    simp only [Proposal.ai_suggest_main]
    rw [if_pos h]
    simp only [Proposal.outputOf]
    refine List.mem_append_right _ ?_
    exact List.mem_map_of_mem _ (Proposal.mem_sortStr m _ hm)

/-- Witness for C9: the amended statement at the concrete one-file run. -/
theorem C9_exit_code_witness :
    Proposal.generate_structure_proposal ["a.txt"] [] = .exited 2 [] ∧
    Proposal.codeOf (Proposal.ai_suggest_main ["a.txt"] []) = some 2 ∧
    ∀ m ∈ Proposal.missingOf ["a.txt"] [],
      ("  - " ++ m) ∈ Proposal.outputOf (Proposal.ai_suggest_main ["a.txt"] []) :=
  C9_exit_code_two_enumeration ["a.txt"] [] (by decide)


/-! ## Directory cleanup: `main.py: cleanup_empty_dirs` and the cleanup
phase of `src/file_utils.py: move_files` / `src/move_files.py: move_files` -/

/-- Structural prefix test on strings (`str.startswith`). -/
def startsWithStr (pre p : String) : Bool := pre.toList.isPrefixOf p.toList

namespace Main

/-- Stable insertion into a list sorted by `sepCount` descending. -/
def insertDepth (x : String) : List String → List String
  | [] => [x]
  | y :: ys => if sepCount y < sepCount x then x :: y :: ys else y :: insertDepth x ys

/-- Deepest-first ordering of candidate directories: the key order of
`sorted(..., key=lambda x: x.count(os.sep), reverse=True)`, and a model of
the bottom-up `os.walk` order (which yields every directory after its own
subdirectories). -/
def sortDepthDesc (l : List String) : List String := l.foldr insertDepth []

/-- `d` is a directory strictly below `root`: what `os.walk(root)` yields
as `os.path.join(root, ...)` paths. -/
def strictUnder (root d : String) : Bool :=
  d != root && startsWithStr (if root = "/" then "/" else root ++ "/") d

/-- The removal loop of `cleanup_empty_dirs` (lines 220-225): for each
candidate, if it still exists and `os.listdir` is empty, `os.rmdir` it and
count it. -/
def cleanupLoop (fs : FS) (count : Nat) : List String → FS × Nat
  | [] => (fs, count)
  | d :: rest =>
    if fs.dirs.contains d && !hasChild fs d then
      cleanupLoop (rmdirF fs d) (count + 1) rest
    else cleanupLoop fs count rest

/-- `main.py: cleanup_empty_dirs(root_dir)` (lines 211-228): materialize
every directory strictly under the root via the bottom-up `os.walk`, then
remove the empty ones, returning the removal count. -/
def cleanup_empty_dirs (fs : FS) (root_dir : String) : FS × Nat :=
  if sortDepthDesc (fs.dirs.filter (strictUnder (normpath root_dir))) = [] then (fs, 0)
  else cleanupLoop fs 0 (sortDepthDesc (fs.dirs.filter (strictUnder (normpath root_dir))))

end Main

namespace FileUtils

/-- `shutil.move(source, destination)` for a regular file (net effect):
when the destination names an existing directory the file moves into it
under its basename; otherwise as `os.rename` (the cross-device copy-delete
fallback has the same net state effect). -/
def shutilMove (fs : FS) (src dst : String) : Option FS :=
  let d := normpath dst
  if fs.dirs.contains d then renameF fs src (d ++ "/" ++ basenamePy src)
  else renameF fs src dst

/-- The upward walk of the cleanup phase (`file_utils.py` lines 192-195 /
`move_files.py` lines 49-53): `while parent and os.path.exists(parent)
and not os.listdir(parent): os.rmdir(parent); parent =
os.path.dirname(parent)`.  `os.rmdir` on the filesystem root `/` raises
and the surrounding `except` ends the walk, so `/` stops it; the fuel only
bounds the recursion (the dirname chain strictly shortens). -/
def upwardWalk : Nat → FS → String → FS
  | 0, fs, _ => fs
  | n+1, fs, parent =>
    if parent ≠ "" ∧ parent ≠ "/" ∧ fs.dirs.contains parent = true ∧
        hasChild fs parent = false then
      upwardWalk n (rmdirF fs parent) (dirnamePy parent)
    else fs

/-- The cleanup phase (`file_utils.py` lines 183-198 / `move_files.py`
lines 36-55): deepest-first over the collected source directories; remove
each one that is empty and walk upward, removing parents as they become
empty. -/
def cleanupPhase (fs : FS) : List String → FS
  | [] => fs
  | d :: rest =>
    if fs.dirs.contains d && !hasChild fs d then
      cleanupPhase (upwardWalk d.length (rmdirF fs d) (dirnamePy d)) rest
    else cleanupPhase fs rest

/-- The move loop of `file_utils.py: move_files` (lines 162-181): skip
missing sources (warning only), collect each existing source's directory
into the `source_dirs` set (modelled in first-seen order), create the
destination parent when absent (`os.makedirs`, raised errors uncaught),
then `shutil.move` inside `try` (errors printed, loop continues). -/
def moveLoop (fs : FS) (source_dirs : List String) :
    List (String × String) → FS × List String × Bool
  | [] => (fs, source_dirs, true)
  | (source, destination) :: rest =>
    if pexists fs source = false then moveLoop fs source_dirs rest
    else
      let sd := dirnamePy source
      let source_dirs2 := if sd ≠ "" ∧ sd ∉ source_dirs then source_dirs ++ [sd]
        else source_dirs
      let dd := dirnamePy destination
      if dd ≠ "" ∧ pexists fs dd = false then
        let mk := makedirs fs dd
        if mk.2 = false then (mk.1, source_dirs2, false)
        else match shutilMove mk.1 source destination with
          | some fs2 => moveLoop fs2 source_dirs2 rest
          | none => moveLoop mk.1 source_dirs2 rest
      else match shutilMove fs source destination with
        | some fs2 => moveLoop fs2 source_dirs2 rest
        | none => moveLoop fs source_dirs2 rest

/-- `src/file_utils.py: move_files(file_mapping)` (the `move_files.py`
variant is line-for-line the same logic): the move loop, then — unless an
uncaught `os.makedirs` error escaped, which skips cleanup entirely — the
deepest-first cleanup of the collected source directories with the upward
parent walk. -/
def move_files (file_mapping : List (String × String)) (fs : FS) : FS :=
  let r := moveLoop fs [] file_mapping
  if r.2.2 then cleanupPhase r.1 (Main.sortDepthDesc r.2.1)
  else r.1

end FileUtils

/-! ### Removal safety: a directory holding a file (transitively) survives -/

theorem chainAux_unfold (n : Nat) (p : String)
    (hq : ¬ (dirnamePy p = p ∨ dirnamePy p = "")) :
    chainAux (n + 1) p = dirnamePy p :: chainAux n (dirnamePy p) := by
  simp only [chainAux]
  rw [if_neg hq]

theorem chainAux_mem_cases (n : Nat) (p d : String) (h : d ∈ chainAux n p) :
    (d = dirnamePy p ∧ d ≠ p) ∨
      ∃ c, c ∈ chainAux n p ∧ d = dirnamePy c ∧ d ≠ c := by
  induction n generalizing p with
  | zero => cases h
  | succ n ih =>
    by_cases hq : dirnamePy p = p ∨ dirnamePy p = ""
    · rw [show chainAux (n + 1) p = [] by simp only [chainAux]; rw [if_pos hq]] at h
      cases h
    · rw [chainAux_unfold n p hq] at h
      rcases List.mem_cons.1 h with rfl | h2
      · left
        refine ⟨rfl, fun hc => hq (Or.inl hc)⟩
      · rcases ih (dirnamePy p) h2 with ⟨h3, h4⟩ | ⟨c, hc, h3, h4⟩
        · right
          refine ⟨dirnamePy p, ?_, h3, h4⟩
          rw [chainAux_unfold n p hq]
          exact List.mem_cons_self _ _
        · right
          refine ⟨c, ?_, h3, h4⟩
          rw [chainAux_unfold n p hq]
          exact List.mem_cons_of_mem _ hc

/-- The safety invariant of every cleanup: the files are untouched and
every ancestor directory of a file of the original state is still
present. -/
def DirsSafe (fs0 fs : FS) : Prop :=
  fs.files = fs0.files ∧ ∀ f ∈ fs0.files, ∀ a ∈ ancestorsOf f, a ∈ fs.dirs

theorem DirsSafe_rmdir (fs0 fs : FS) (d : String) (hinv : DirsSafe fs0 fs)
    (hempty : hasChild fs d = false) : DirsSafe fs0 (rmdirF fs d) := by
  obtain ⟨hf, ha⟩ := hinv
  refine ⟨hf, ?_⟩
  intro f hfm a ham
  have hmem := ha f hfm a ham
  have hne : a ≠ d := by
    rintro rfl
    rcases chainAux_mem_cases _ _ _ ham with ⟨h1, h2⟩ | ⟨c, hc, h1, h2⟩
    · have hchild : hasChild fs a = true := by
        unfold hasChild
        rw [List.any_eq_true]
        refine ⟨f, ?_, ?_⟩
        · rw [List.mem_append]
          left
          rw [hf]
          exact hfm
        · rw [Bool.and_eq_true, bne_iff_ne, beq_iff_eq]
          exact ⟨fun hc2 => h2 hc2.symm, h1.symm⟩
      rw [hchild] at hempty
      cases hempty
    · have hcd : c ∈ fs.dirs := ha f hfm c hc
      have hchild : hasChild fs a = true := by
        unfold hasChild
        rw [List.any_eq_true]
        refine ⟨c, ?_, ?_⟩
        · rw [List.mem_append]
          right
          exact hcd
        · rw [Bool.and_eq_true, bne_iff_ne, beq_iff_eq]
          exact ⟨fun hc2 => h2 hc2.symm, h1.symm⟩
      rw [hchild] at hempty
      cases hempty
  unfold rmdirF
  simp only [List.mem_filter]
  exact ⟨hmem, by rw [bne_iff_ne]; exact hne⟩

theorem cleanupLoop_safe (fs0 : FS) (cands : List String) (fs : FS) (c : Nat)
    (hinv : DirsSafe fs0 fs) : DirsSafe fs0 (Main.cleanupLoop fs c cands).1 := by
  induction cands generalizing fs c with
  | nil => exact hinv
  | cons d rest ih =>
    simp only [Main.cleanupLoop]
    split
    · rename_i h
      have hempty : hasChild fs d = false := by
        rw [Bool.and_eq_true] at h
        have h2 := h.2
        rw [Bool.not_eq_true'] at h2
        exact h2
      exact ih _ _ (DirsSafe_rmdir fs0 fs d hinv hempty)
    · exact ih _ _ hinv

theorem upwardWalk_safe (fs0 : FS) (n : Nat) (fs : FS) (parent : String)
    (hinv : DirsSafe fs0 fs) : DirsSafe fs0 (FileUtils.upwardWalk n fs parent) := by
  induction n generalizing fs parent with
  | zero => exact hinv
  | succ n ih =>
    simp only [FileUtils.upwardWalk]
    split
    · rename_i h
      exact ih _ _ (DirsSafe_rmdir fs0 fs parent hinv h.2.2.2)
    · exact hinv

theorem cleanupPhase_safe (fs0 : FS) (cands : List String) (fs : FS)
    (hinv : DirsSafe fs0 fs) : DirsSafe fs0 (FileUtils.cleanupPhase fs cands) := by
  induction cands generalizing fs with
  | nil => exact hinv
  | cons d rest ih =>
    simp only [FileUtils.cleanupPhase]
    split
    · rename_i h
      have hempty : hasChild fs d = false := by
        rw [Bool.and_eq_true] at h
        have h2 := h.2
        rw [Bool.not_eq_true'] at h2
        exact h2
      exact ih _ (upwardWalk_safe fs0 _ _ _ (DirsSafe_rmdir fs0 fs d hinv hempty))
    · exact ih _ hinv

theorem cleanupLoop_keeps (fs : FS) (c : Nat) (cands : List String) (r : String)
    (hr : ∀ d ∈ cands, d ≠ r) (hmem : r ∈ fs.dirs) :
    r ∈ (Main.cleanupLoop fs c cands).1.dirs := by
  induction cands generalizing fs c with
  | nil => exact hmem
  | cons d rest ih =>
    simp only [Main.cleanupLoop]
    split
    · apply ih _ _ (fun x hx => hr x (List.mem_cons_of_mem _ hx))
      unfold rmdirF
      simp only [List.mem_filter]
      refine ⟨hmem, ?_⟩
      rw [bne_iff_ne]
      exact Ne.symm (hr d (List.mem_cons_self _ _))
    · exact ih _ _ (fun x hx => hr x (List.mem_cons_of_mem _ hx)) hmem

theorem mem_insertDepth (x a : String) (l : List String)
    (h : a ∈ Main.insertDepth x l) : a = x ∨ a ∈ l := by
  induction l with
  | nil =>
    rcases List.mem_cons.1 h with rfl | h2
    · exact Or.inl rfl
    · cases h2
  | cons y ys ih =>
    simp only [Main.insertDepth] at h
    split at h
    · rcases List.mem_cons.1 h with rfl | h2
      · exact Or.inl rfl
      · exact Or.inr h2
    · rcases List.mem_cons.1 h with rfl | h2
      · exact Or.inr (List.mem_cons_self _ _)
      · rcases ih h2 with h3 | h3
        · exact Or.inl h3
        · exact Or.inr (List.mem_cons_of_mem _ h3)

theorem mem_sortDepthDesc (a : String) (l : List String)
    (h : a ∈ Main.sortDepthDesc l) : a ∈ l := by
  induction l with
  | nil => cases h
  | cons y ys ih =>
    simp only [Main.sortDepthDesc, List.foldr_cons] at h
    rcases mem_insertDepth y a _ h with rfl | h2
    · exact List.mem_cons_self _ _
    · exact List.mem_cons_of_mem _ (ih h2)

/-! ## C3 — cleanup never removes non-empty directories or the root -/

/-- The run of the root-escape scenario: the only file lives at
`/r/a/f.txt` under the organization root `/r`, and the model-proposed
destination resolves outside the root. -/
def fsRootEscape : FS := { files := ["/r/a/f.txt"], dirs := ["/", "/r", "/r/a", "/out"] }

/-- A mapping whose destination lies outside the organization root `/r`
(an absolute model path, which `os.path.join(root, new)` passes through
unchanged). -/
def mapRootEscape : List (String × String) := [("/r/a/f.txt", "/out/f.txt")]

/-- C3 counterexample: after `file_utils.move_files` relocates the only
file to `/out/f.txt`, its cleanup removes the emptied source directory
`/r/a` and the upward walk then removes the organization root `/r`
itself — the walk stops only at `\x7b""\x7d`-or-`/` parents, never at the
root of the run. -/
theorem C3_counterexample_root_removed :
    "/r" ∈ fsRootEscape.dirs ∧
    ¬ "/r" ∈ (FileUtils.move_files mapRootEscape fsRootEscape).dirs := by decide

/-- C3 (amended): the cleanups never touch files; any directory that
(transitively) contains a file of the state survives both
`cleanup_empty_dirs` and the `file_utils` cleanup phase (so no directory
still holding files is ever removed); and `main.py`'s
`cleanup_empty_dirs` never removes the root directory it is given — but
the upward walk of the `file_utils`/`move_files` cleanup can remove the
run's root when the moves empty it (see the counterexample). -/
theorem C3_cleanup_safety :
    (∀ (fs : FS) (root_dir : String),
      normpath root_dir ∈ fs.dirs →
      normpath root_dir ∈ (Main.cleanup_empty_dirs fs root_dir).1.dirs) ∧
    (∀ (fs : FS) (root_dir : String), WFanc fs →
      (Main.cleanup_empty_dirs fs root_dir).1.files = fs.files ∧
      ∀ f ∈ fs.files, ∀ a ∈ ancestorsOf f,
        a ∈ (Main.cleanup_empty_dirs fs root_dir).1.dirs) ∧
    (∀ (fs : FS) (cands : List String), WFanc fs →
      (FileUtils.cleanupPhase fs cands).files = fs.files ∧
      ∀ f ∈ fs.files, ∀ a ∈ ancestorsOf f,
        a ∈ (FileUtils.cleanupPhase fs cands).dirs) := by
  refine ⟨?_, ?_, ?_⟩
  · intro fs root_dir hmem
    unfold Main.cleanup_empty_dirs
    split
    · exact hmem
    · apply cleanupLoop_keeps fs 0 _ (normpath root_dir) ?_ hmem
      intro d hd
      have hd2 := mem_sortDepthDesc d _ hd
      have hd3 := (List.mem_filter.1 hd2).2
      unfold Main.strictUnder at hd3
      rw [Bool.and_eq_true] at hd3
      have hd4 := hd3.1
      rw [bne_iff_ne] at hd4
      exact hd4
  · intro fs root_dir hwf
    have hsafe : DirsSafe fs (Main.cleanup_empty_dirs fs root_dir).1 := by
      unfold Main.cleanup_empty_dirs
      split
      · exact ⟨rfl, hwf⟩
      · exact cleanupLoop_safe fs _ fs 0 ⟨rfl, hwf⟩
    exact ⟨hsafe.1, hsafe.2⟩
  · intro fs cands hwf
    have hsafe : DirsSafe fs (FileUtils.cleanupPhase fs cands) :=
      cleanupPhase_safe fs cands fs ⟨rfl, hwf⟩
    exact ⟨hsafe.1, hsafe.2⟩

/-- Witness for C3: in the root-escape state, `main.py`'s
`cleanup_empty_dirs` keeps the root `/r`, and the `file_utils` cleanup
phase over the same state keeps every ancestor of the file (here `/r/a`)
and all files. -/
theorem C3_cleanup_safety_witness :
    normpath "/r" ∈ (Main.cleanup_empty_dirs fsRootEscape "/r").1.dirs ∧
    (FileUtils.cleanupPhase fsRootEscape ["/r/a"]).files = fsRootEscape.files ∧
    "/r/a" ∈ (FileUtils.cleanupPhase fsRootEscape ["/r/a"]).dirs :=
  ⟨C3_cleanup_safety.1 fsRootEscape "/r" (by decide),
   (C3_cleanup_safety.2.2 fsRootEscape ["/r/a"] (by decide)).1,
   (C3_cleanup_safety.2.2 fsRootEscape ["/r/a"] (by decide)).2 "/r/a/f.txt" (by decide)
     "/r/a" (by decide)⟩

end LlmFileSort
